import Mathlib

/-!
Verification of the core of `src/services/geminiService.ts`:
the streaming turn decoder (`sendMessageStreamToAI`), the retry/backoff
executor (`retryWithBackoff`), the PCM audio encode/decode helpers
(`createBlob`, `decodeAudioData`, `encode`/base64), the voice-session
callback wiring (`LiveSession`) and the playback scheduler (`AudioPlayer`).

Strings are modelled as `List Char` (JavaScript strings are sequences of
UTF-16 code units; all strings involved here are plain text).  Amplitudes
and clock times are modelled as `ℚ`: every numeric step of the audio path
(`sample * 32768`, the `Int16Array` coercion, `int16 / 32768.0`) is exact
in binary floating point, because it only scales by powers of two and
truncates, so rational arithmetic computes the very same values.
-/

/-- `listStartsWith s pat` is true iff `pat` is an initial segment of `s`
(the primitive behind JavaScript `String.prototype.split` searching). -/
def listStartsWith : List Char → List Char → Bool
  | _, [] => true
  | [], _ :: _ => false
  | a :: s, b :: p => a = b && listStartsWith s p

/-- `splitFirst pat s` splits `s` at the first occurrence of `pat`:
`some (a, b)` with `s = a ++ pat ++ b` and the occurrence earliest, or
`none` when `pat` does not occur.  For a nonempty `pat` this models the
pair `(parts[0], parts.slice(1).join(pat))` of JavaScript
`s.split(pat)`: splitting at every occurrence and joining the tail back
with the separator restores exactly the text after the first occurrence. -/
def splitFirst (pat : List Char) : List Char → Option (List Char × List Char)
  | [] => if listStartsWith [] pat then some ([], []) else none
  | c :: rest =>
    if listStartsWith (c :: rest) pat then some ([], (c :: rest).drop pat.length)
    else
      match splitFirst pat rest with
      | some (a, b) => some (c :: a, b)
      | none => none

/-- The whitespace set of JavaScript `String.prototype.trim`
(WhiteSpace and LineTerminator code points). -/
def isJsWhitespace (c : Char) : Bool :=
  c = '\x09' || c = '\x0A' || c = '\x0B' || c = '\x0C' || c = '\x0D' ||
  c = ' ' || c = '\xA0' || c = ' ' ||
  c = ' ' || c = ' ' || c = ' ' || c = ' ' ||
  c = ' ' || c = ' ' || c = ' ' || c = ' ' ||
  c = ' ' || c = ' ' || c = ' ' ||
  c = ' ' || c = ' ' || c = ' ' || c = ' ' ||
  c = '　' || c = '﻿'

/-- JavaScript `String.prototype.trim`: strip leading and trailing
whitespace. -/
def jsTrim (s : List Char) : List Char :=
  ((s.dropWhile isJsWhitespace).reverse.dropWhile isJsWhitespace).reverse

/-- `src/services/geminiService.ts:32`: the retriable-error classifier
`/429|500|503|RESOURCE_EXHAUSTED|unavailable/i.test(errorString)`.  The
regex is a plain alternation of literals with the case-insensitive flag,
so it tests whether any of the five literals occurs in the string up to
letter case.  Errors are modelled by the string the code matches against
(the `JSON.stringify`/`String` rendering built on line 29). -/
def isRetriableError (e : List Char) : Bool :=
  let l := e.map Char.toLower
  (splitFirst "429".toList l).isSome || (splitFirst "500".toList l).isSome ||
  (splitFirst "503".toList l).isSome ||
  (splitFirst "resource_exhausted".toList l).isSome ||
  (splitFirst "unavailable".toList l).isSome

/-- Outcome of one run of `retryWithBackoff`: the value returned or error
thrown, the argument of each `sleep(delay)` call in order, and how many
times `apiCall` was invoked. -/
structure RetryResult (α : Type) where
  result : Except (List Char) α
  delays : List Nat
  calls : Nat

/-- The retry loop of `retryWithBackoff`
(`src/services/geminiService.ts:22-43`).  `fuel` is `maxRetries - 1 -
attempt`, the number of retries still allowed, so the guard
`attempt < maxRetries - 1` of line 34 is `fuel ≠ 0`; `attempt` is carried
only to index into the operation's per-attempt outcome. -/
def retryAux {α : Type} (op : Nat → Except (List Char) α) :
    Nat → Nat → Nat → RetryResult α
  | 0, attempt, _ =>
    match op attempt with
    | .ok v => ⟨.ok v, [], 1⟩
    | .error e => ⟨.error e, [], 1⟩
  | fuel + 1, attempt, delay =>
    match op attempt with
    | .ok v => ⟨.ok v, [], 1⟩
    | .error e =>
      if isRetriableError e then
        let r := retryAux op fuel (attempt + 1) (delay * 2)
        ⟨r.result, delay :: r.delays, r.calls + 1⟩
      else ⟨.error e, [], 1⟩

/-- `retryWithBackoff(apiCall, maxRetries, initialDelay, context)`
(`src/services/geminiService.ts:15-47`).  The operation is modelled by
the outcome of each attempt; `sleep` is recorded, not performed.  With
`maxRetries = 0` the loop body never runs and line 46 throws the
"failed after all retries" error without calling the operation. -/
def retryWithBackoff {α : Type} (op : Nat → Except (List Char) α)
    (maxRetries initialDelay : Nat) : RetryResult α :=
  if maxRetries = 0 then
    ⟨.error "failed after all retries.".toList, [], 0⟩
  else retryAux op (maxRetries - 1) 0 initialDelay

/-- The base64 alphabet used by `btoa`/`atob`. -/
def b64Alphabet : List Char :=
  "ABCDEFGHIJKLMNOPQRSTUVWXYZabcdefghijklmnopqrstuvwxyz0123456789+/".toList

/-- Character for a six-bit group. -/
def sextetChar (n : Nat) : Char := b64Alphabet.getD n 'A'

/-- Six-bit group of a base64 character. -/
def charSextet (c : Char) : Nat := b64Alphabet.indexOf c

/-- `encode` (`src/services/geminiService.ts:50-57`): build the binary
string from the byte values and apply `btoa`.  Modelled directly on the
byte list: `btoa` maps each 3-byte group to 4 alphabet characters and
pads a trailing group of 1 or 2 bytes with `=`. -/
def btoaBytes : List Nat → List Char
  | [] => []
  | [a] => [sextetChar (a / 4), sextetChar (a % 4 * 16), '=', '=']
  | [a, b] => [sextetChar (a / 4), sextetChar (a % 4 * 16 + b / 16),
               sextetChar (b % 16 * 4), '=']
  | a :: b :: c :: rest =>
    sextetChar (a / 4) :: sextetChar (a % 4 * 16 + b / 16) ::
    sextetChar (b % 16 * 4 + c / 64) :: sextetChar (c % 64) :: btoaBytes rest

/-- `decode` (`src/services/geminiService.ts:59-67`): apply `atob` and
read the code units back as bytes.  Each 4-character group yields 3
bytes, or 1-2 bytes when terminated by `=` padding. -/
def atobChars : List Char → List Nat
  | c1 :: c2 :: c3 :: c4 :: rest =>
    if c3 = '=' then
      [charSextet c1 * 4 + charSextet c2 / 16]
    else if c4 = '=' then
      [charSextet c1 * 4 + charSextet c2 / 16,
       charSextet c2 % 16 * 16 + charSextet c3 / 4]
    else
      (charSextet c1 * 4 + charSextet c2 / 16) ::
      (charSextet c2 % 16 * 16 + charSextet c3 / 4) ::
      (charSextet c3 % 4 * 64 + charSextet c4) :: atobChars rest
  | _ => []

/-- Truncation toward zero, the integer conversion step of the ECMAScript
`ToInt16` abstract operation applied when a number is stored into an
`Int16Array`. -/
def ratTrunc (x : ℚ) : ℤ := if 0 ≤ x then ⌊x⌋ else ⌈x⌉

/-- ECMAScript `ToInt16`: truncate toward zero, reduce modulo 2^16, and
reinterpret as a signed 16-bit value.  This is what the assignment
`int16[i] = data[i] * 32768` on `src/services/geminiService.ts:93`
performs — there is no rounding and no saturation. -/
def toInt16 (x : ℚ) : ℤ := (ratTrunc x + 32768) % 65536 - 32768

/-- Little-endian bytes of one `Int16Array` element as seen through
`new Uint8Array(int16.buffer)`. -/
def int16ToBytesLE (v : ℤ) : List Nat :=
  [(v % 65536).toNat % 256, (v % 65536).toNat / 256]

/-- Signed 16-bit value of two little-endian bytes, as read by
`new Int16Array(data.buffer)`. -/
def bytesToInt16 (lo hi : Nat) : ℤ :=
  if (lo : ℤ) + 256 * hi < 32768 then (lo : ℤ) + 256 * hi
  else (lo : ℤ) + 256 * hi - 65536

/-- All complete little-endian 16-bit words of a byte list. -/
def bytesToInt16List : List Nat → List ℤ
  | lo :: hi :: rest => bytesToInt16 lo hi :: bytesToInt16List rest
  | _ => []

/-- The float sample list and the mime tag returned by `createBlob`,
with the base64 payload modelled through `btoaBytes`. -/
structure BlobModel where
  data : List Char
  mimeType : List Char

/-- `createBlob` (`src/services/geminiService.ts:89-99`): store each
sample times 32768 into an `Int16Array` (ECMAScript `ToInt16`: truncate
toward zero and wrap modulo 2^16), reinterpret the buffer as bytes
(little-endian), and base64-encode them with `encode`. -/
def createBlob (data : List ℚ) : BlobModel :=
  ⟨btoaBytes ((data.map fun s => toInt16 (s * 32768)).flatMap int16ToBytesLE),
   "audio/pcm;rate=16000".toList⟩

/-- `decodeAudioData` (`src/services/geminiService.ts:69-87`):
reinterpret the bytes as an `Int16Array`, then fill each channel `ch`
with `dataInt16[i * numChannels + ch] / 32768.0`.  The returned value is
the list of per-channel float arrays of the created `AudioBuffer`
(sample counts and rate only fix the buffer's duration, handled
separately). -/
def decodeAudioData (data : List Nat) (numChannels : Nat) : List (List ℚ) :=
  let dataInt16 := bytesToInt16List data
  let frameCount := dataInt16.length / numChannels
  (List.range numChannels).map fun channel =>
    (List.range frameCount).map fun i =>
      ((dataInt16.getD (i * numChannels + channel) 0 : ℤ) : ℚ) / 32768

/-- Channel 0 of a mono decode, as consumed by `AudioPlayer` which calls
`decodeAudioData(audioData, ctx, 24000, 1)`. -/
def decodeAudioDataMono (data : List Nat) : List ℚ :=
  (decodeAudioData data 1).getD 0 []

/-- The `ParsedData` interface of `src/services/geminiService.ts:310-317`
(header record produced by `JSON.parse` of the pre-sentinel text). -/
structure ParsedData where
  is_image_prompt : Bool
  image_prompt_text : List Char
  is_code_block : Bool
  code_block_language : List Char
  code_block_content : List Char
  learned_facts : List (List Char)
deriving DecidableEq

/-- One callback invocation of the `StreamingCallbacks` record
(`src/services/geminiService.ts:319-325`), in invocation order. -/
inductive Ev where
  | data (pd : ParsedData)
  | chunk (s : List Char)
  | imageRequired (prompt : List Char)
  | complete
  | error (e : List Char)
deriving DecidableEq

/-- The mutable locals of the stream loop in `sendMessageStreamToAI`
(`src/services/geminiService.ts:460-462`), plus `halted` marking that the
`return` of line 482 has exited the function, and the trace of callback
invocations so far. -/
structure StreamState where
  buffer : List Char
  jsonParsed : Bool
  halted : Bool
  events : List Ev
deriving DecidableEq

/-- The sentinel `'JSON|||TEXT'` (`src/services/geminiService.ts:462`). -/
def separator : List Char := "JSON|||TEXT".toList

/-- The synthesized default header of the end-of-stream fallback
(`src/services/geminiService.ts:503-510`). -/
def defaultData : ParsedData := ⟨false, [], false, [], [], []⟩

/-- JavaScript truthiness `parsedData.is_image_prompt &&
parsedData.image_prompt_text` (`src/services/geminiService.ts:480`):
the flag is set and the prompt string is non-empty. -/
def imageHalt (pd : ParsedData) : Bool :=
  pd.is_image_prompt && !pd.image_prompt_text.isEmpty

/-- One iteration of `for await (const chunk of responseStream)`
(`src/services/geminiService.ts:464-497`).  `parse` stands for
`JSON.parse` restricted to `ParsedData` (`none` = exception thrown);
both runs of any comparison theorem apply it to the same header string,
so it may be arbitrary. -/
def feedChunk (parse : List Char → Option ParsedData)
    (st : StreamState) (chunkText : List Char) : StreamState :=
  if st.halted then st
  else if st.jsonParsed then { st with events := st.events ++ [Ev.chunk chunkText] }
  else
    let buffer := st.buffer ++ chunkText
    match splitFirst separator buffer with
    | none => { st with buffer := buffer }
    | some (jsonString, firstTextChunk) =>
      match parse jsonString with
      | some parsedData =>
        if imageHalt parsedData then
          { buffer := buffer, jsonParsed := true, halted := true,
            events := st.events ++
              [Ev.data parsedData, Ev.imageRequired parsedData.image_prompt_text] }
        else
          { buffer := buffer, jsonParsed := true, halted := false,
            events := st.events ++ [Ev.data parsedData] ++
              (if firstTextChunk.isEmpty then [] else [Ev.chunk firstTextChunk]) }
      | none =>
        { buffer := buffer, jsonParsed := true, halted := false,
          events := st.events ++ [Ev.chunk buffer] }

/-- Iterating the stream loop over a fragment sequence. -/
def processChunks (parse : List Char → Option ParsedData)
    (st : StreamState) (frags : List (List Char)) : StreamState :=
  frags.foldl (feedChunk parse) st

/-- Initial loop state: empty buffer, `jsonParsed = false`. -/
def initState : StreamState := ⟨[], false, false, []⟩

/-- End of stream (`src/services/geminiService.ts:499-516`): the
no-sentinel fallback guarded by `!jsonParsed && buffer.trim()`, then
`onComplete`. -/
def finishStream (st : StreamState) : List Ev :=
  (if !st.jsonParsed && !(jsTrim st.buffer).isEmpty then
     st.events ++ [Ev.data defaultData, Ev.chunk st.buffer]
   else st.events) ++ [Ev.complete]

/-- Consuming the response stream: fragments in arrival order, then
either normal end of stream (`streamErr = none`) or an exception raised
while iterating (`streamErr = some e`, caught on line 517 and surfaced
as `onError`).  After the image-required `return` nothing further of the
stream is consumed and no terminal callback runs. -/
def runStream (parse : List Char → Option ParsedData)
    (frags : List (List Char)) (streamErr : Option (List Char)) : List Ev :=
  let st := processChunks parse initState frags
  if st.halted then st.events
  else
    match streamErr with
    | some e => st.events ++ [Ev.error e]
    | none => finishStream st

/-- The optional image argument of `sendMessageStreamToAI` (only its
presence matters to the modelled control flow). -/
structure ImagePayload where
  data : List Char
  mimeType : List Char
deriving DecidableEq

/-- Fixed reply of the empty-input short circuit
(`src/services/geminiService.ts:447`). -/
def noInputMsg : List Char :=
  "I see you didn\x27t send a message or image. What\x27s on your mind?".toList

/-- `sendMessageStreamToAI` (`src/services/geminiService.ts:435-521`),
as the list of callback invocations it performs.  `outcome` models the
environment: `.error e` is `retryWithBackoff(… sendMessageStream …)`
ultimately throwing (caught by the outer catch), `.ok (frags, streamErr)`
is a successfully opened stream delivering `frags` and then either
ending or raising `streamErr`.  `parts.length === 0` holds exactly when
the message is empty and no image was given (lines 442-445). -/
def sendMessageStreamToAI (parse : List Char → Option ParsedData)
    (message : List Char) (image : Option ImagePayload)
    (outcome : Except (List Char) (List (List Char) × Option (List Char))) :
    List Ev :=
  if message.isEmpty && image.isNone then [Ev.chunk noInputMsg, Ev.complete]
  else
    match outcome with
    | .error e => [Ev.error e]
    | .ok (frags, streamErr) => runStream parse frags streamErr

/-- Whether the run of `sendMessageStreamToAI` exits through the
image-required `return` of `src/services/geminiService.ts:482`. -/
def turnHaltedOnImage (parse : List Char → Option ParsedData)
    (message : List Char) (image : Option ImagePayload)
    (outcome : Except (List Char) (List (List Char) × Option (List Char))) :
    Bool :=
  if message.isEmpty && image.isNone then false
  else
    match outcome with
    | .error _ => false
    | .ok (frags, _) => (processChunks parse initState frags).halted

/-- The `onData` payloads of a callback trace, in order. -/
def outData (es : List Ev) : List ParsedData :=
  es.filterMap fun e =>
    match e with
    | Ev.data pd => some pd
    | _ => none

/-- Text carried by a single callback (`onChunk` text, else empty). -/
def evChunkText : Ev → List Char
  | Ev.chunk s => s
  | _ => []

/-- Concatenation of all `onChunk` texts of a callback trace. -/
def outChunks (es : List Ev) : List Char := (es.map evChunkText).flatten

/-- Terminal callbacks: `onComplete` or `onError`. -/
def isTerminalEv : Ev → Bool
  | Ev.complete => true
  | Ev.error _ => true
  | _ => false

/-- Number of terminal callbacks in a trace. -/
def countTerminal (es : List Ev) : Nat := (es.filter isTerminalEv).length

/-- Characterization of the loop state after feeding fragments whose
concatenation is `j`, in terms of `j` alone: before the sentinel is
complete the whole text sits in the buffer and nothing was emitted;
once the sentinel is in, the pre-sentinel text has been parsed and the
emitted `onData`/`onChunk` content is fixed by `j`, regardless of how
`j` was cut into fragments. -/
def StateOK (parse : List Char → Option ParsedData) (j : List Char)
    (st : StreamState) : Prop :=
  (splitFirst separator j = none → st = ⟨j, false, false, []⟩) ∧
  (∀ hdr rest, splitFirst separator j = some (hdr, rest) →
    (parse hdr = none →
      st.jsonParsed = true ∧ st.halted = false ∧
      outData st.events = [] ∧ outChunks st.events = j) ∧
    (∀ pd, parse hdr = some pd →
      (imageHalt pd = true →
        st.jsonParsed = true ∧ st.halted = true ∧
        st.events = [Ev.data pd, Ev.imageRequired pd.image_prompt_text]) ∧
      (imageHalt pd = false →
        st.jsonParsed = true ∧ st.halted = false ∧
        outData st.events = [pd] ∧ outChunks st.events = rest)))

/-- The in-band error message thrown by `generateImageWithRetry` when the
call succeeds but carries no image (`src/services/geminiService.ts:379`). -/
def noImageDataMsg : List Char :=
  "API returned successfully but contained no image data.".toList

/-- The `apiCall` closure of `generateImageWithRetry`
(`src/services/geminiService.ts:364-380`): `remote k` is the outcome of
the `ai.models.generateImages` call on attempt `k` — a transport error,
or the `generatedImages` list (absent/empty both modelled as `[]`); a
non-empty list yields its first entry's image bytes, an empty one throws
the empty-payload error. -/
def imageApiCall (remote : Nat → Except (List Char) (List (List Char)))
    (k : Nat) : Except (List Char) (List Char) :=
  match remote k with
  | .error e => .error e
  | .ok imgs =>
    match imgs with
    | [] => .error noImageDataMsg
    | b :: _ => .ok b

/-- `generateImageWithRetry` (`src/services/geminiService.ts:363-384`):
the `apiCall` under `retryWithBackoff(apiCall, 3, 10000, …)`. -/
def generateImageWithRetry (remote : Nat → Except (List Char) (List (List Char))) :
    RetryResult (List Char) :=
  retryWithBackoff (imageApiCall remote) 3 10000

/-- The record returned by `getInitialGreeting`. -/
structure GreetingResult where
  text : List Char
  learned_facts : List (List Char)
deriving DecidableEq

/-- Fallback greeting of the catch branch
(`src/services/geminiService.ts:359`). -/
def greetingFallbackText : List Char := "Hey! I\x27m ready to chat.".toList

/-- `getInitialGreeting` (`src/services/geminiService.ts:327-361`):
`outcome` is the result of the wrapped `chat.sendMessage` call
(`.ok text` = `response.text`, `.error e` = anything thrown inside the
`try`, including the retry executor giving up).  On success, if the text
contains the separator, keep only `split(separator).slice(1)
.join(separator).trim()`; `learned_facts` is always `[]`. -/
def getInitialGreeting (outcome : Except (List Char) (List Char)) :
    GreetingResult :=
  match outcome with
  | .error _ => ⟨greetingFallbackText, []⟩
  | .ok responseText =>
    match splitFirst separator responseText with
    | some (_, rest) => ⟨jsTrim rest, []⟩
    | none => ⟨responseText, []⟩

/-- `Sender` (`src/types.ts`). -/
inductive Sender where
  | user
  | ai
deriving DecidableEq

/-- One callback invocation of `LiveSessionCallbacks`
(`src/services/geminiService.ts:115-121`); tool-call arguments and the
decoded audio bytes are carried opaquely. -/
inductive Cb where
  | transcriptionUpdate (text : List Char) (isFinal : Bool) (sender : Sender)
  | audioUpdate (bytes : List Nat)
  | toolCall (name : List Char)
  | close
  | error (e : List Char)
deriving DecidableEq

/-- The mutable transcription accumulators of `LiveSession`
(`src/services/geminiService.ts:131-132`). -/
structure LiveState where
  currentInputTranscription : List Char
  currentOutputTranscription : List Char
deriving DecidableEq

/-- The fields of a `LiveServerMessage` that `handleMessage` inspects:
optional output/input transcription deltas, the turn-complete flag, the
optional inline base64 audio of `modelTurn.parts[0]`, and the names of
any tool calls. -/
structure ServerMessageModel where
  outputTranscription : Option (List Char)
  inputTranscription : Option (List Char)
  turnComplete : Bool
  inlineAudioData : Option (List Char)
  toolCalls : List (List Char)
deriving DecidableEq

/-- `LiveSession.handleMessage` (`src/services/geminiService.ts:186-224`):
appends deltas, emits non-final updates, flushes both accumulators on
`turnComplete` (input first, each only if non-empty), forwards decoded
inline audio when the base64 string is non-empty (JS truthiness), and
emits one `onToolCall` per function call.  The `sendToolResponse`
acknowledgement goes to the transport, not to a callback, so it does not
appear in the trace. -/
def handleMessage (st : LiveState) (m : ServerMessageModel) :
    LiveState × List Cb :=
  let out1 :=
    match m.outputTranscription with
    | some t => st.currentOutputTranscription ++ t
    | none => st.currentOutputTranscription
  let cbs1 :=
    match m.outputTranscription with
    | some _ => [Cb.transcriptionUpdate out1 false Sender.ai]
    | none => []
  let inp1 :=
    match m.inputTranscription with
    | some t => st.currentInputTranscription ++ t
    | none => st.currentInputTranscription
  let cbs2 :=
    match m.inputTranscription with
    | some _ => [Cb.transcriptionUpdate inp1 false Sender.user]
    | none => []
  let cbs3 :=
    if m.turnComplete then
      (if inp1.isEmpty then [] else [Cb.transcriptionUpdate inp1 true Sender.user]) ++
      (if out1.isEmpty then [] else [Cb.transcriptionUpdate out1 true Sender.ai])
    else []
  let st' : LiveState :=
    if m.turnComplete then ⟨[], []⟩ else ⟨inp1, out1⟩
  let cbs4 :=
    match m.inlineAudioData with
    | some b64 => if b64.isEmpty then [] else [Cb.audioUpdate (atobChars b64)]
    | none => []
  let cbs5 := m.toolCalls.map Cb.toolCall
  (st', cbs1 ++ cbs2 ++ cbs3 ++ cbs4 ++ cbs5)

/-- External events driving one `LiveSession`: a server message, the
remote channel's close or error notification (`onclose`/`onerror`
handlers of `src/services/geminiService.ts:155-156`), or the caller
invoking `stop()` (`src/services/geminiService.ts:226-235`). -/
inductive LiveEvent where
  | serverMessage (m : ServerMessageModel)
  | remoteClose
  | remoteError (e : List Char)
  | stopCall
deriving DecidableEq

/-- Callbacks triggered by one external event.  `remoteClose` runs the
registered `onclose` handler, which calls `callbacks.onClose()`;
`stop()` tears down the devices and then also calls
`callbacks.onClose()` directly — the class keeps no flag to suppress
either one. -/
def liveStep (st : LiveState) (ev : LiveEvent) : LiveState × List Cb :=
  match ev with
  | .serverMessage m => handleMessage st m
  | .remoteClose => (st, [Cb.close])
  | .remoteError e => (st, [Cb.error e])
  | .stopCall => (st, [Cb.close])

/-- Trace of callback invocations over a sequence of external events. -/
def liveRun (evs : List LiveEvent) : List Cb :=
  (evs.foldl
    (fun acc ev =>
      let r := liveStep acc.1 ev
      (r.1, acc.2 ++ r.2))
    ((⟨[], []⟩ : LiveState), ([] : List Cb))).2

/-- Is this callback `onClose`? -/
def isCloseCb : Cb → Bool
  | Cb.close => true
  | _ => false

/-- Number of `onClose` invocations in a trace. -/
def countClose (cbs : List Cb) : Nat := (cbs.filter isCloseCb).length

/-- Events whose handler invokes `onClose`: an explicit `stop()` and the
remote channel's close notification. -/
def isCloseTrigger : LiveEvent → Bool
  | .remoteClose => true
  | .stopCall => true
  | _ => false

/-- The mutable scheduling state of `AudioPlayer`
(`src/services/geminiService.ts:238-270`): the `nextStartTime` cursor
and the tracked set of in-flight sources, each recorded with its
scheduled start time and duration. -/
structure PlayerState where
  nextStartTime : ℚ
  sources : List (ℚ × ℚ)
deriving DecidableEq

/-- Duration of a decoded frame: `AudioBuffer.duration` =
`frameCount / sampleRate` with `frameCount` the number of 16-bit mono
samples and the player's fixed 24 kHz rate. -/
def audioFrameDuration (data : List Nat) : ℚ :=
  ((bytesToInt16List data).length : ℚ) / 24000

/-- `AudioPlayer.play` (`src/services/geminiService.ts:251-261`):
`nextStartTime = max(nextStartTime, currentTime)`, decode, start the
source at `nextStartTime`, advance the cursor by the buffer's duration,
track the source.  Returns the new state and the scheduled start time
passed to `source.start`. -/
def AudioPlayerPlay (st : PlayerState) (currentTime : ℚ) (data : List Nat) :
    PlayerState × ℚ :=
  let t0 := max st.nextStartTime currentTime
  let dur := audioFrameDuration data
  (⟨t0 + dur, st.sources ++ [(t0, dur)]⟩, t0)

/-- `AudioPlayer.stopAll` (`src/services/geminiService.ts:263-269`):
call `stop()` on every tracked source, clear the set, reset the cursor
to 0.  Returns the new state and the list of sources that received
`stop()`. -/
def AudioPlayerStopAll (st : PlayerState) : PlayerState × List (ℚ × ℚ) :=
  (⟨0, []⟩, st.sources)

/-- A parse function that always fails (used to instantiate theorems at
concrete inputs). -/
def parseNone : List Char → Option ParsedData := fun _ => none

/-- A parse function returning an image-request header with a non-empty
prompt (used to instantiate theorems at concrete inputs). -/
def parseImagePrompt : List Char → Option ParsedData :=
  fun _ => some ⟨true, "a cat".toList, false, [], [], []⟩

theorem listStartsWith_iff (s pat : List Char) :
    listStartsWith s pat = true ↔ ∃ t, s = pat ++ t := by
  induction pat generalizing s with
  | nil => simp [listStartsWith]
  | cons p ps ih =>
    cases s with
    | nil => simp [listStartsWith]
    | cons a s' =>
      simp only [listStartsWith, Bool.and_eq_true, decide_eq_true_eq, ih]
      constructor
      · rintro ⟨rfl, t, rfl⟩; exact ⟨t, rfl⟩
      · rintro ⟨t, h⟩
        cases h
        exact ⟨rfl, t, rfl⟩

theorem splitFirst_cons_eq (pat : List Char) (c : Char) (rest : List Char) :
    splitFirst pat (c :: rest) =
      if listStartsWith (c :: rest) pat = true then
        some ([], (c :: rest).drop pat.length)
      else
        match splitFirst pat rest with
        | some (a, b) => some (c :: a, b)
        | none => none := rfl

theorem splitFirst_sound (pat s a b : List Char)
    (h : splitFirst pat s = some (a, b)) : s = a ++ pat ++ b := by
  induction s generalizing a b with
  | nil =>
    cases hs : listStartsWith [] pat with
    | true =>
      rcases (listStartsWith_iff [] pat).mp hs with ⟨t, ht⟩
      rcases List.append_eq_nil.mp ht.symm with ⟨hp, htnil⟩
      subst hp
      rw [splitFirst, if_pos hs] at h
      rw [Option.some.injEq, Prod.mk.injEq] at h
      obtain ⟨ha, hb⟩ := h
      simp [← ha, ← hb]
    | false =>
      rw [splitFirst, if_neg (by simp [hs])] at h
      exact absurd h (by simp)
  | cons c rest ih =>
    rw [splitFirst_cons_eq] at h
    cases hs : listStartsWith (c :: rest) pat with
    | true =>
      rcases (listStartsWith_iff _ pat).mp hs with ⟨t, ht⟩
      rw [if_pos hs, Option.some.injEq, Prod.mk.injEq] at h
      obtain ⟨ha, hb⟩ := h
      have hdrop : (c :: rest).drop pat.length = t := by
        rw [ht, List.drop_left]
      rw [← ha, ← hb, hdrop, List.nil_append, ht]
    | false =>
      rw [if_neg (by simp [hs])] at h
      cases hsp : splitFirst pat rest with
      | none => rw [hsp] at h; exact absurd h (by simp)
      | some ab =>
        rcases ab with ⟨a', b'⟩
        rw [hsp] at h
        simp only [Option.some.injEq, Prod.mk.injEq] at h
        obtain ⟨ha, hb⟩ := h
        have hrest := ih a' b' hsp
        rw [← ha, ← hb, hrest]
        simp

theorem listStartsWith_false_of_no_occurrence (pat : List Char) (d : Char)
    (rest c : List Char) (hs : listStartsWith (d :: rest) pat = false)
    (hlen : pat.length ≤ (d :: rest).length) :
    listStartsWith (d :: rest ++ c) pat = false := by
  cases hval : listStartsWith (d :: rest ++ c) pat with
  | false => rfl
  | true =>
    exfalso
    rcases (listStartsWith_iff _ pat).mp hval with ⟨t, ht⟩
    have htake : ((d :: rest) ++ c).take pat.length = pat := by
      rw [ht, List.take_left]
    rw [List.take_append_of_le_length hlen] at htake
    have hsplit : (d :: rest).take pat.length ++ (d :: rest).drop pat.length
        = d :: rest := List.take_append_drop _ _
    rw [htake] at hsplit
    have : listStartsWith (d :: rest) pat = true := by
      rw [listStartsWith_iff]
      exact ⟨(d :: rest).drop pat.length, hsplit.symm⟩
    rw [this] at hs
    exact absurd hs (by simp)

theorem splitFirst_append (pat s c a b : List Char)
    (h : splitFirst pat s = some (a, b)) :
    splitFirst pat (s ++ c) = some (a, b ++ c) := by
  induction s generalizing a b with
  | nil =>
    cases hs : listStartsWith [] pat with
    | true =>
      rcases (listStartsWith_iff [] pat).mp hs with ⟨t, ht⟩
      rcases List.append_eq_nil.mp ht.symm with ⟨hp, _⟩
      subst hp
      rw [splitFirst, if_pos hs, Option.some.injEq, Prod.mk.injEq] at h
      obtain ⟨ha, hb⟩ := h
      rw [← ha, ← hb, List.nil_append]
      cases c with
      | nil => rfl
      | cons x xs =>
        rw [splitFirst_cons_eq, if_pos (by simp [listStartsWith])]
        simp
    | false =>
      rw [splitFirst, if_neg (by simp [hs])] at h
      exact absurd h (by simp)
  | cons d rest ih =>
    rw [splitFirst_cons_eq] at h
    have hcons : (d :: rest) ++ c = d :: (rest ++ c) := rfl
    cases hs : listStartsWith (d :: rest) pat with
    | true =>
      rcases (listStartsWith_iff _ pat).mp hs with ⟨t, ht⟩
      rw [if_pos hs, Option.some.injEq, Prod.mk.injEq] at h
      obtain ⟨ha, hb⟩ := h
      have hs' : listStartsWith (d :: (rest ++ c)) pat = true := by
        rw [listStartsWith_iff]
        refine ⟨t ++ c, ?_⟩
        rw [← hcons, ht, List.append_assoc]
      rw [hcons, splitFirst_cons_eq, if_pos hs']
      have hd : (d :: rest).drop pat.length = t := by rw [ht, List.drop_left]
      have hd' : (d :: (rest ++ c)).drop pat.length = t ++ c := by
        have hfull : d :: (rest ++ c) = pat ++ (t ++ c) := by
          rw [← hcons, ht, List.append_assoc]
        rw [hfull, List.drop_left]
      rw [hd', ← ha, ← hb, hd]
    | false =>
      rw [if_neg (by simp [hs])] at h
      cases hsp : splitFirst pat rest with
      | none => rw [hsp] at h; exact absurd h (by simp)
      | some ab =>
        rcases ab with ⟨a', b'⟩
        rw [hsp] at h
        simp only [Option.some.injEq, Prod.mk.injEq] at h
        obtain ⟨ha, hb⟩ := h
        have hlen : pat.length ≤ (d :: rest).length := by
          have := splitFirst_sound pat rest a' b' hsp
          simp only [this, List.length_cons, List.length_append]
          omega
        have hs' := listStartsWith_false_of_no_occurrence pat d rest c hs hlen
        rw [hcons] at hs'
        rw [hcons, splitFirst_cons_eq, if_neg (by simp [hs']),
          ih a' b' hsp, ← ha, ← hb]

theorem charSextet_sextetChar : ∀ n < 64, charSextet (sextetChar n) = n := by decide

theorem sextetChar_ne_pad (n : Nat) : sextetChar n ≠ '=' := by
  by_cases h : n < 64
  · revert n
    decide
  · have : sextetChar n = 'A' := by
      unfold sextetChar
      rw [List.getD_eq_default]
      have : b64Alphabet.length = 64 := by decide
      omega
    rw [this]
    decide

theorem atob_btoa (l : List Nat) (hb : ∀ b ∈ l, b < 256) :
    atobChars (btoaBytes l) = l := by
  induction l using btoaBytes.induct with
  | case1 => rfl
  | case2 a =>
    have ha : a < 256 := hb a (by simp)
    have h1 : a / 4 < 64 := by omega
    have h2 : a % 4 * 16 < 64 := by omega
    simp only [btoaBytes, atobChars, if_true,
      charSextet_sextetChar _ h1, charSextet_sextetChar _ h2]
    congr 1
    omega
  | case3 a b =>
    have ha : a < 256 := hb a (by simp)
    have hbb : b < 256 := hb b (by simp)
    have h1 : a / 4 < 64 := by omega
    have h2 : a % 4 * 16 + b / 16 < 64 := by omega
    have h3 : b % 16 * 4 < 64 := by omega
    simp only [btoaBytes, atobChars, if_neg (sextetChar_ne_pad _), if_true,
      charSextet_sextetChar _ h1, charSextet_sextetChar _ h2,
      charSextet_sextetChar _ h3]
    congr 1
    · omega
    · congr 1
      omega
  | case4 a b c rest ih =>
    have ha : a < 256 := hb a (by simp)
    have hbb : b < 256 := hb b (by simp)
    have hc : c < 256 := hb c (by simp)
    have h1 : a / 4 < 64 := by omega
    have h2 : a % 4 * 16 + b / 16 < 64 := by omega
    have h3 : b % 16 * 4 + c / 64 < 64 := by omega
    have h4 : c % 64 < 64 := by omega
    have hrest : ∀ x ∈ rest, x < 256 := fun x hx => hb x (by simp [hx])
    simp only [btoaBytes, atobChars, if_neg (sextetChar_ne_pad _),
      charSextet_sextetChar _ h1, charSextet_sextetChar _ h2,
      charSextet_sextetChar _ h3, charSextet_sextetChar _ h4, ih hrest]
    congr 1
    · omega
    · congr 1
      · omega
      · congr 1
        omega

theorem toInt16_bounds (x : ℚ) : -32768 ≤ toInt16 x ∧ toInt16 x < 32768 := by
  unfold toInt16
  omega

theorem int16_bytes_lt (v : ℤ) :
    ∀ b ∈ int16ToBytesLE v, b < 256 := by
  intro b hb
  unfold int16ToBytesLE at hb
  simp only [List.mem_cons, List.not_mem_nil, or_false] at hb
  rcases hb with rfl | rfl
  · omega
  · omega

theorem bytesToInt16_int16ToBytesLE (v : ℤ) (h1 : -32768 ≤ v) (h2 : v < 32768) :
    bytesToInt16 ((v % 65536).toNat % 256) ((v % 65536).toNat / 256) = v := by
  unfold bytesToInt16
  omega

theorem bytesToInt16List_cons2 (lo hi : Nat) (rest : List Nat) :
    bytesToInt16List (lo :: hi :: rest) =
      bytesToInt16 lo hi :: bytesToInt16List rest := rfl

theorem bytesToInt16List_flatMap (l : List ℤ)
    (h : ∀ v ∈ l, -32768 ≤ v ∧ v < 32768) :
    bytesToInt16List (l.flatMap int16ToBytesLE) = l := by
  induction l with
  | nil => rfl
  | cons v rest ih =>
    have hv := h v (by simp)
    have hrest : ∀ x ∈ rest, -32768 ≤ x ∧ x < 32768 :=
      fun x hx => h x (by simp [hx])
    have hshape : (v :: rest).flatMap int16ToBytesLE =
        (v % 65536).toNat % 256 :: (v % 65536).toNat / 256 ::
          rest.flatMap int16ToBytesLE := by
      simp [int16ToBytesLE]
    rw [hshape, bytesToInt16List_cons2, ih hrest,
      bytesToInt16_int16ToBytesLE v hv.1 hv.2]

theorem range_map_getD (l : List ℤ) (f : ℤ → ℚ) :
    (List.range l.length).map (fun i => f (l.getD i 0)) = l.map f := by
  induction l with
  | nil => rfl
  | cons x xs ih =>
    rw [List.length_cons, List.range_succ_eq_map, List.map_cons, List.map_map]
    simp only [List.getD_cons_zero, Function.comp_def, List.getD_cons_succ]
    rw [List.map_cons, ih]

theorem decodeAudioDataMono_eq (data : List Nat) :
    decodeAudioDataMono data =
      (bytesToInt16List data).map fun v => ((v : ℤ) : ℚ) / 32768 := by
  unfold decodeAudioDataMono decodeAudioData
  have h1 : List.range 1 = [0] := rfl
  rw [h1]
  simp only [List.map_cons, List.map_nil, Nat.div_one, List.getD_cons_zero,
    mul_one, add_zero]
  exact range_map_getD (bytesToInt16List data) fun v => ((v : ℤ) : ℚ) / 32768

/-- The whole audio round trip, before any numeric estimate: transport
(base64 and the byte-level `Int16Array` views) is lossless, so decoding
`createBlob`'s payload yields exactly the truncated-and-wrapped samples. -/
theorem pcm_pipeline (data : List ℚ) :
    decodeAudioDataMono (atobChars (createBlob data).data) =
      data.map fun s => ((toInt16 (s * 32768) : ℤ) : ℚ) / 32768 := by
  unfold createBlob
  have hbytes : ∀ b ∈ (data.map fun s => toInt16 (s * 32768)).flatMap
      int16ToBytesLE, b < 256 := by
    intro b hb
    rw [List.mem_flatMap] at hb
    rcases hb with ⟨v, _, hbv⟩
    exact int16_bytes_lt v b hbv
  have hrange : ∀ v ∈ data.map fun s => toInt16 (s * 32768),
      -32768 ≤ v ∧ v < 32768 := by
    intro v hv
    rw [List.mem_map] at hv
    rcases hv with ⟨s, _, rfl⟩
    exact toInt16_bounds _
  rw [atob_btoa _ hbytes, decodeAudioDataMono_eq,
    bytesToInt16List_flatMap _ hrange, List.map_map]
  rfl

theorem ratTrunc_abs_lt (x : ℚ) : |((ratTrunc x : ℤ) : ℚ) - x| < 1 := by
  unfold ratTrunc
  by_cases h : 0 ≤ x
  · rw [if_pos h, abs_lt]
    constructor
    · have := Int.sub_one_lt_floor x
      linarith
    · have := Int.floor_le x
      linarith
  · rw [if_neg h, abs_lt]
    constructor
    · have := Int.le_ceil x
      linarith
    · have := Int.ceil_lt_add_one x
      linarith

theorem ratTrunc_range (x : ℚ) (h1 : -32768 ≤ x) (h2 : x < 32768) :
    -32768 ≤ ratTrunc x ∧ ratTrunc x ≤ 32767 := by
  unfold ratTrunc
  by_cases h : 0 ≤ x
  · rw [if_pos h]
    constructor
    · have : (0 : ℤ) ≤ ⌊x⌋ := Int.floor_nonneg.mpr h
      omega
    · have : ⌊x⌋ < (32768 : ℤ) := by
        rw [Int.floor_lt]
        exact_mod_cast h2
      omega
  · rw [if_neg h]
    push_neg at h
    constructor
    · have hc : ((-32768 : ℤ) : ℚ) ≤ ((⌈x⌉ : ℤ) : ℚ) := by
        calc ((-32768 : ℤ) : ℚ) ≤ x := by exact_mod_cast h1
        _ ≤ ((⌈x⌉ : ℤ) : ℚ) := Int.le_ceil x
      exact_mod_cast hc
    · have : ⌈x⌉ ≤ (0 : ℤ) := Int.ceil_le.mpr (by exact_mod_cast h.le)
      omega

theorem toInt16_eq_ratTrunc (x : ℚ) (h1 : -32768 ≤ x) (h2 : x < 32768) :
    toInt16 x = ratTrunc x := by
  have := ratTrunc_range x h1 h2
  unfold toInt16
  omega

/-- Per-sample quantization estimate: for a sample in `[-1, 1)` the
stored 16-bit value does not wrap, and truncation loses strictly less
than one integer step, i.e. `1/32768` in amplitude. -/
theorem sample_roundtrip_bound (s : ℚ) (h1 : -1 ≤ s) (h2 : s < 1) :
    |((toInt16 (s * 32768) : ℤ) : ℚ) / 32768 - s| < 1 / 32768 := by
  have hx1 : -32768 ≤ s * 32768 := by nlinarith
  have hx2 : s * 32768 < 32768 := by nlinarith
  rw [toInt16_eq_ratTrunc _ hx1 hx2]
  have habs := ratTrunc_abs_lt (s * 32768)
  have key : ((ratTrunc (s * 32768) : ℤ) : ℚ) / 32768 - s
      = (((ratTrunc (s * 32768) : ℤ) : ℚ) - s * 32768) / 32768 := by ring
  rw [key, abs_div]
  have h32 : |(32768 : ℚ)| = 32768 := by norm_num
  rw [h32]
  gcongr

theorem outData_append (a b : List Ev) :
    outData (a ++ b) = outData a ++ outData b := by
  unfold outData
  exact List.filterMap_append a b _

theorem outChunks_append (a b : List Ev) :
    outChunks (a ++ b) = outChunks a ++ outChunks b := by
  unfold outChunks
  rw [List.map_append, List.flatten_append]

theorem countTerminal_append (a b : List Ev) :
    countTerminal (a ++ b) = countTerminal a + countTerminal b := by
  unfold countTerminal
  rw [List.filter_append, List.length_append]

theorem stateOK_step (parse : List Char → Option ParsedData) (j c : List Char)
    (st : StreamState) (h : StateOK parse j st) :
    StateOK parse (j ++ c) (feedChunk parse st c) := by
  cases hsp : splitFirst separator j with
  | none =>
    have hst := h.1 hsp
    subst hst
    constructor
    · intro hn2
      simp [feedChunk, hn2]
    · intro hdr rest hs2
      constructor
      · intro hp
        simp [feedChunk, hs2, hp, outData, outChunks, evChunkText]
      · intro pd hp
        constructor
        · intro him
          simp [feedChunk, hs2, hp, him]
        · intro him
          by_cases hre : rest = []
          · subst hre
            simp [feedChunk, hs2, hp, him, outData, outChunks, evChunkText]
          · simp [feedChunk, hs2, hp, him, hre, outData, outChunks, evChunkText]
  | some pr =>
    rcases pr with ⟨hdr, rest⟩
    have hsp' := splitFirst_append separator j c hdr rest hsp
    have hbase := h.2 hdr rest hsp
    constructor
    · intro hn2
      rw [hsp'] at hn2
      exact absurd hn2 (by simp)
    · intro hdr2 rest2 hs2
      rw [hsp'] at hs2
      simp only [Option.some.injEq, Prod.mk.injEq] at hs2
      obtain ⟨rfl, rfl⟩ := hs2
      constructor
      · intro hp
        obtain ⟨hjp, hha, hdata, hchunks⟩ := hbase.1 hp
        have hfeed : feedChunk parse st c =
            { st with events := st.events ++ [Ev.chunk c] } := by
          unfold feedChunk
          rw [hha, hjp]
          simp
        rw [hfeed]
        refine ⟨hjp, hha, ?_, ?_⟩
        · rw [show ({ st with events := st.events ++ [Ev.chunk c] } :
              StreamState).events = st.events ++ [Ev.chunk c] from rfl,
            outData_append, hdata]
          simp [outData]
        · rw [show ({ st with events := st.events ++ [Ev.chunk c] } :
              StreamState).events = st.events ++ [Ev.chunk c] from rfl,
            outChunks_append, hchunks]
          simp [outChunks, evChunkText]
      · intro pd hp
        constructor
        · intro him
          obtain ⟨hjp, hha, hev⟩ := ((hbase.2 pd hp).1) him
          have hfeed : feedChunk parse st c = st := by
            unfold feedChunk
            rw [hha]
            simp
          rw [hfeed]
          exact ⟨hjp, hha, hev⟩
        · intro him
          obtain ⟨hjp, hha, hdata, hchunks⟩ := ((hbase.2 pd hp).2) him
          have hfeed : feedChunk parse st c =
              { st with events := st.events ++ [Ev.chunk c] } := by
            unfold feedChunk
            rw [hha, hjp]
            simp
          rw [hfeed]
          refine ⟨hjp, hha, ?_, ?_⟩
          · rw [show ({ st with events := st.events ++ [Ev.chunk c] } :
                StreamState).events = st.events ++ [Ev.chunk c] from rfl,
              outData_append, hdata]
            simp [outData]
          · rw [show ({ st with events := st.events ++ [Ev.chunk c] } :
                StreamState).events = st.events ++ [Ev.chunk c] from rfl,
              outChunks_append, hchunks]
            simp [outChunks, evChunkText]

theorem processChunks_stateOK (parse : List Char → Option ParsedData)
    (frags : List (List Char)) :
    StateOK parse frags.flatten (processChunks parse initState frags) := by
  induction frags using List.reverseRecOn with
  | nil =>
    constructor
    · intro _
      rfl
    · intro hdr rest hs
      have hnone : splitFirst separator ([] : List (List Char)).flatten = none := rfl
      rw [hnone] at hs
      exact absurd hs (by simp)
  | append_singleton fs c ih =>
    unfold processChunks at ih ⊢
    rw [List.foldl_append, List.foldl_cons, List.foldl_nil, List.flatten_append,
      List.flatten_cons, List.flatten_nil, List.append_nil]
    exact stateOK_step parse fs.flatten c _ ih

theorem countTerminal_feedChunk (parse : List Char → Option ParsedData)
    (st : StreamState) (c : List Char) :
    countTerminal (feedChunk parse st c).events = countTerminal st.events := by
  unfold feedChunk
  by_cases hha : st.halted = true
  · rw [if_pos hha]
  · rw [if_neg hha]
    by_cases hjp : st.jsonParsed = true
    · rw [if_pos hjp]
      simp [countTerminal_append, countTerminal, isTerminalEv]
    · rw [if_neg hjp]
      simp only []
      cases hsp : splitFirst separator (st.buffer ++ c) with
      | none => rfl
      | some pr =>
        rcases pr with ⟨hdr, rest⟩
        simp only []
        cases hp : parse hdr with
        | none =>
          simp [countTerminal_append, countTerminal, isTerminalEv]
        | some pd =>
          simp only []
          by_cases him : imageHalt pd = true
          · rw [if_pos him]
            simp [countTerminal_append, countTerminal, isTerminalEv]
          · rw [if_neg him]
            by_cases hre : rest.isEmpty = true
            · simp [hre, countTerminal_append, countTerminal, isTerminalEv]
            · simp only [Bool.not_eq_true] at hre
              simp [hre, countTerminal_append, countTerminal, isTerminalEv]

theorem countTerminal_processChunks (parse : List Char → Option ParsedData)
    (frags : List (List Char)) :
    ∀ st : StreamState,
      countTerminal (processChunks parse st frags).events =
        countTerminal st.events := by
  induction frags with
  | nil => intro st; rfl
  | cons f fs ih =>
    intro st
    unfold processChunks at ih ⊢
    rw [List.foldl_cons, ih, countTerminal_feedChunk]

theorem countClose_append (a b : List Cb) :
    countClose (a ++ b) = countClose a + countClose b := by
  unfold countClose
  rw [List.filter_append, List.length_append]

theorem countClose_handleMessage (st : LiveState) (m : ServerMessageModel) :
    countClose (handleMessage st m).2 = 0 := by
  unfold handleMessage
  simp only []
  rw [countClose_append, countClose_append, countClose_append, countClose_append]
  have h1 : countClose (match m.outputTranscription with
      | some _ => [Cb.transcriptionUpdate
          (match m.outputTranscription with
           | some t => st.currentOutputTranscription ++ t
           | none => st.currentOutputTranscription) false Sender.ai]
      | none => []) = 0 := by
    cases m.outputTranscription <;> simp [countClose, isCloseCb]
  have h2 : countClose (match m.inputTranscription with
      | some _ => [Cb.transcriptionUpdate
          (match m.inputTranscription with
           | some t => st.currentInputTranscription ++ t
           | none => st.currentInputTranscription) false Sender.user]
      | none => []) = 0 := by
    cases m.inputTranscription <;> simp [countClose, isCloseCb]
  rw [h1, h2]
  have h3 : ∀ l1 l2 : List Char, countClose
      ((if l1.isEmpty then [] else [Cb.transcriptionUpdate l1 true Sender.user]) ++
       (if l2.isEmpty then [] else [Cb.transcriptionUpdate l2 true Sender.ai])) = 0 := by
    intro l1 l2
    rw [countClose_append]
    by_cases e1 : l1.isEmpty = true <;> by_cases e2 : l2.isEmpty = true <;>
      simp [e1, e2, countClose, isCloseCb]
  have h4 : countClose (if m.turnComplete = true then
      (if (match m.inputTranscription with
           | some t => st.currentInputTranscription ++ t
           | none => st.currentInputTranscription).isEmpty then []
       else [Cb.transcriptionUpdate
          (match m.inputTranscription with
           | some t => st.currentInputTranscription ++ t
           | none => st.currentInputTranscription) true Sender.user]) ++
      (if (match m.outputTranscription with
           | some t => st.currentOutputTranscription ++ t
           | none => st.currentOutputTranscription).isEmpty then []
       else [Cb.transcriptionUpdate
          (match m.outputTranscription with
           | some t => st.currentOutputTranscription ++ t
           | none => st.currentOutputTranscription) true Sender.ai])
      else []) = 0 := by
    by_cases htc : m.turnComplete = true
    · rw [if_pos htc]
      exact h3 _ _
    · rw [if_neg htc]
      rfl
  rw [h4]
  have h5 : countClose (match m.inlineAudioData with
      | some b64 => if b64.isEmpty then [] else [Cb.audioUpdate (atobChars b64)]
      | none => []) = 0 := by
    cases hb : m.inlineAudioData with
    | none => rfl
    | some b64 =>
      by_cases he : b64.isEmpty = true <;> simp [he, countClose, isCloseCb]
  rw [h5]
  have h6 : countClose (m.toolCalls.map Cb.toolCall) = 0 := by
    unfold countClose
    rw [List.filter_map]
    have : (isCloseCb ∘ Cb.toolCall) = fun _ => false := by
      funext x
      rfl
    rw [this]
    simp
  rw [h6]

theorem countClose_liveStep (st : LiveState) (ev : LiveEvent) :
    countClose (liveStep st ev).2 = if isCloseTrigger ev = true then 1 else 0 := by
  cases ev with
  | serverMessage m =>
    simp [liveStep, isCloseTrigger, countClose_handleMessage st m]
  | remoteClose => rfl
  | remoteError e => rfl
  | stopCall => rfl

theorem countClose_liveRun_aux (evs : List LiveEvent) :
    ∀ (st : LiveState) (acc : List Cb),
      countClose ((evs.foldl
        (fun acc ev =>
          let r := liveStep acc.1 ev
          (r.1, acc.2 ++ r.2)) (st, acc)).2) =
      countClose acc + (evs.filter isCloseTrigger).length := by
  induction evs with
  | nil =>
    intro st acc
    simp
  | cons e es ih =>
    intro st acc
    rw [List.foldl_cons]
    simp only []
    rw [ih, countClose_append, countClose_liveStep]
    rw [List.filter_cons]
    by_cases htr : isCloseTrigger e = true
    · rw [if_pos htr, if_pos htr]
      simp
      omega
    · rw [if_neg htr, if_neg htr]
      simp

theorem sendMessageStreamToAI_stream (parse : List Char → Option ParsedData)
    (message : List Char) (image : Option ImagePayload)
    (frags : List (List Char)) (streamErr : Option (List Char))
    (hmsg : (message.isEmpty && image.isNone) = false) :
    sendMessageStreamToAI parse message image (.ok (frags, streamErr)) =
      runStream parse frags streamErr := by
  unfold sendMessageStreamToAI
  rw [hmsg]
  simp

/-- Chunk-boundary invariance at the `runStream` level: the emitted
`onData` payloads and the concatenated `onChunk` text depend only on the
concatenation of the fragments, not on how the text was cut. -/
theorem runStream_eq_of_flatten_eq (parse : List Char → Option ParsedData)
    (frags1 frags2 : List (List Char)) (h : frags1.flatten = frags2.flatten) :
    outData (runStream parse frags1 none) = outData (runStream parse frags2 none) ∧
    outChunks (runStream parse frags1 none) = outChunks (runStream parse frags2 none) := by
  have h1 := processChunks_stateOK parse frags1
  have h2 := processChunks_stateOK parse frags2
  rw [h] at h1
  unfold runStream
  simp only []
  cases hsp : splitFirst separator frags2.flatten with
  | none =>
    have e1 := h1.1 hsp
    have e2 := h2.1 hsp
    rw [e1, e2]
    exact ⟨rfl, rfl⟩
  | some pr =>
    rcases pr with ⟨hdr, rest⟩
    have b1 := h1.2 hdr rest hsp
    have b2 := h2.2 hdr rest hsp
    cases hp : parse hdr with
    | none =>
      obtain ⟨hjp1, hha1, hdata1, hchunks1⟩ := b1.1 hp
      obtain ⟨hjp2, hha2, hdata2, hchunks2⟩ := b2.1 hp
      rw [hha1, hha2]
      simp only [Bool.false_eq_true, if_false]
      unfold finishStream
      rw [hjp1, hjp2]
      simp only [Bool.not_true, Bool.false_and, Bool.false_eq_true, if_false]
      constructor
      · rw [outData_append, outData_append, hdata1, hdata2]
      · rw [outChunks_append, outChunks_append, hchunks1, hchunks2]
    | some pd =>
      by_cases him : imageHalt pd = true
      · obtain ⟨hjp1, hha1, hev1⟩ := (b1.2 pd hp).1 him
        obtain ⟨hjp2, hha2, hev2⟩ := (b2.2 pd hp).1 him
        rw [hha1, hha2]
        simp only [if_true]
        rw [hev1, hev2]
        exact ⟨rfl, rfl⟩
      · have him' : imageHalt pd = false := by
          cases hv : imageHalt pd
          · rfl
          · exact absurd hv him
        obtain ⟨hjp1, hha1, hdata1, hchunks1⟩ := (b1.2 pd hp).2 him'
        obtain ⟨hjp2, hha2, hdata2, hchunks2⟩ := (b2.2 pd hp).2 him'
        rw [hha1, hha2]
        simp only [Bool.false_eq_true, if_false]
        unfold finishStream
        rw [hjp1, hjp2]
        simp only [Bool.not_true, Bool.false_and, Bool.false_eq_true, if_false]
        constructor
        · rw [outData_append, outData_append, hdata1, hdata2]
        · rw [outChunks_append, outChunks_append, hchunks1, hchunks2]

/-- C9: with an empty message and no image, `sendMessageStreamToAI` never
touches the remote service (the trace is the same for every remote
outcome) and emits exactly one `onChunk` with the fixed apology text
followed by `onComplete` — no `onData`, `onImageRequired` or `onError`. -/
theorem sendMessageStream_empty_input_short_circuit
    (parse : List Char → Option ParsedData)
    (outcome : Except (List Char) (List (List Char) × Option (List Char))) :
    sendMessageStreamToAI parse [] none outcome =
      [Ev.chunk noInputMsg, Ev.complete] := rfl

/-- C8: `AudioPlayer.play` schedules each buffer at
`max(nextStartTime, currentTime)`; a second frame played with the same
clock time starts exactly at the first frame's start plus the first
frame's decoded duration — no gap and no overlap; and `stopAll` issues
`stop()` to exactly the tracked sources, clears the tracked set and
resets the cursor to zero. -/
theorem audioPlayer_gapless_scheduling (st : PlayerState) (t : ℚ)
    (d1 d2 : List Nat) :
    (AudioPlayerPlay st t d1).2 = max st.nextStartTime t ∧
    (AudioPlayerPlay (AudioPlayerPlay st t d1).1 t d2).2 =
      (AudioPlayerPlay st t d1).2 + audioFrameDuration d1 ∧
    (∀ st' : PlayerState, AudioPlayerStopAll st' = (⟨0, []⟩, st'.sources)) := by
  refine ⟨rfl, ?_, fun st' => rfl⟩
  unfold AudioPlayerPlay
  simp only []
  have hdur : 0 ≤ audioFrameDuration d1 := by
    unfold audioFrameDuration
    positivity
  have hle : t ≤ max st.nextStartTime t + audioFrameDuration d1 := by
    have := le_max_right st.nextStartTime t
    linarith
  exact max_eq_left hle

/-- C10: `getInitialGreeting` returns a value on every outcome of the
wrapped remote call; its `learned_facts` component is `[]` on every
path, and on any error it returns exactly the fixed fallback record. -/
theorem getInitialGreeting_total_and_fallback
    (outcome : Except (List Char) (List Char)) :
    (getInitialGreeting outcome).learned_facts = [] ∧
    (∀ e, outcome = .error e →
      getInitialGreeting outcome = ⟨greetingFallbackText, []⟩) := by
  constructor
  · unfold getInitialGreeting
    cases outcome with
    | error e => rfl
    | ok t =>
      cases hsp : splitFirst separator t with
      | none => simp [hsp]
      | some pr =>
        rcases pr with ⟨a, b⟩
        simp [hsp]
  · rintro e rfl
    rfl

theorem getInitialGreeting_total_and_fallback_witness :
    (getInitialGreeting (.error "boom".toList)).learned_facts = [] ∧
    getInitialGreeting (.error "boom".toList) = ⟨greetingFallbackText, []⟩ :=
  ⟨(getInitialGreeting_total_and_fallback (.error "boom".toList)).1,
   (getInitialGreeting_total_and_fallback (.error "boom".toList)).2
     "boom".toList rfl⟩

/-- C4: with `maxRetries = 3` and initial delay `D`, an operation that
fails with a retriable error on every attempt is invoked exactly 3
times, the recorded `sleep` delays are `D` then `2·D`, and the error of
the last attempt is what propagates; an operation whose first failure is
not retriable propagates immediately after a single invocation with no
delay. -/
theorem retryWithBackoff_schedule_and_immediate_propagation
    (D : Nat) (errs : Nat → List Char)
    (hr : ∀ k, isRetriableError (errs k) = true)
    (op2 : Nat → Except (List Char) Unit) (e : List Char)
    (h0 : op2 0 = .error e) (hnr : isRetriableError e = false) :
    retryWithBackoff (fun k => (.error (errs k) : Except (List Char) Unit)) 3 D =
      ⟨.error (errs 2), [D, D * 2], 3⟩ ∧
    retryWithBackoff op2 3 D = ⟨.error e, [], 1⟩ := by
  constructor
  · unfold retryWithBackoff
    rw [if_neg (by omega)]
    show retryAux _ 2 0 D = _
    simp only [retryAux, hr 0, hr 1, if_true]
  · unfold retryWithBackoff
    rw [if_neg (by omega)]
    show retryAux op2 2 0 D = _
    simp only [retryAux, h0, hnr, Bool.false_eq_true, if_false]

theorem retryWithBackoff_schedule_witness :
    (∀ k : Nat, isRetriableError ((fun _ => "429".toList) k) = true) ∧
    ((fun _ => (.error "denied".toList : Except (List Char) Unit)) 0 =
      .error "denied".toList) ∧
    isRetriableError "denied".toList = false ∧
    (retryWithBackoff (fun k =>
        (.error ((fun _ => "429".toList) k) : Except (List Char) Unit)) 3 7 =
      ⟨.error ((fun _ => "429".toList) 2), [7, 7 * 2], 3⟩ ∧
     retryWithBackoff (fun _ => (.error "denied".toList : Except (List Char) Unit))
        3 7 = ⟨.error "denied".toList, [], 1⟩) :=
  ⟨fun _ => (by decide : isRetriableError "429".toList = true), rfl, by decide,
   retryWithBackoff_schedule_and_immediate_propagation 7 (fun _ => "429".toList)
     (fun _ => (by decide : isRetriableError "429".toList = true))
     (fun _ => .error "denied".toList) "denied".toList rfl (by decide)⟩

/-- C7: the empty-payload error message of `generateImageWithRetry` does
not match the retriable classifier, so a run whose first remote call
succeeds with no image data invokes the operation exactly once and
propagates that error with no delay and no retry. -/
theorem generateImage_empty_payload_not_retried
    (remote : Nat → Except (List Char) (List (List Char)))
    (h : remote 0 = .ok []) :
    isRetriableError noImageDataMsg = false ∧
    generateImageWithRetry remote = ⟨.error noImageDataMsg, [], 1⟩ := by
  have hclass : isRetriableError noImageDataMsg = false := by decide
  refine ⟨hclass, ?_⟩
  unfold generateImageWithRetry retryWithBackoff
  rw [if_neg (by omega)]
  show retryAux _ 2 0 10000 = _
  have hcall : imageApiCall remote 0 = .error noImageDataMsg := by
    unfold imageApiCall
    rw [h]
  simp only [retryAux, hcall, hclass, Bool.false_eq_true, if_false]

theorem generateImage_empty_payload_not_retried_witness :
    ((fun _ => (.ok [] : Except (List Char) (List (List Char)))) 0 = .ok []) ∧
    isRetriableError noImageDataMsg = false ∧
    generateImageWithRetry (fun _ => .ok []) = ⟨.error noImageDataMsg, [], 1⟩ :=
  ⟨rfl, (generateImage_empty_payload_not_retried (fun _ => .ok []) rfl).1,
   (generateImage_empty_payload_not_retried (fun _ => .ok []) rfl).2⟩

/-- C5 (counterexample to the claim as stated): an explicit `stop()`
followed by the remote channel's close notification invokes `onClose`
twice — `stop()` calls it directly and the registered `onclose` handler
calls it again; nothing deduplicates them. -/
theorem liveSession_double_onClose_on_stop_then_remoteClose :
    countClose (liveRun [LiveEvent.stopCall, LiveEvent.remoteClose]) = 2 := by
  decide

/-- C5 (amended): `LiveSession` invokes `onClose` exactly once per close
trigger — once for each explicit `stop()` and once for each remote
close notification — and never from the error handler or a server
message; so a `stop()` whose channel close also fires yields two
invocations, and an error alone yields none. -/
theorem liveSession_onClose_per_trigger (evs : List LiveEvent) :
    countClose (liveRun evs) = (evs.filter isCloseTrigger).length := by
  unfold liveRun
  rw [countClose_liveRun_aux evs ⟨[], []⟩ []]
  simp [countClose]

/-- C6 (counterexample to the claim as stated): a stream whose only
fragment is a single space never shows the sentinel and ends with a
non-empty buffer, yet the fallback is skipped — `buffer.trim()` is empty
— so the trace is just `onComplete`: the buffered text is dropped and no
`onData`/`onChunk` is emitted. -/
theorem eos_whitespace_buffer_dropped :
    sendMessageStreamToAI parseNone "hi".toList none
      (.ok ([" ".toList], none)) = [Ev.complete] := by
  decide

/-- C6 (amended): if the sentinel never appears in the concatenated
stream and the buffer is non-empty *after trimming whitespace* when the
stream ends, `sendMessageStreamToAI` emits `onData` with the synthesized
default header (all flags false, empty strings, empty facts), then one
`onChunk` carrying the whole untrimmed buffer, then `onComplete`. -/
theorem eos_fallback_emits_buffer (parse : List Char → Option ParsedData)
    (message : List Char) (image : Option ImagePayload)
    (frags : List (List Char))
    (hmsg : (message.isEmpty && image.isNone) = false)
    (hnosep : splitFirst separator frags.flatten = none)
    (htrim : (jsTrim frags.flatten).isEmpty = false) :
    sendMessageStreamToAI parse message image (.ok (frags, none)) =
      [Ev.data defaultData, Ev.chunk frags.flatten, Ev.complete] := by
  rw [sendMessageStreamToAI_stream parse message image frags none hmsg]
  unfold runStream
  have hok := (processChunks_stateOK parse frags).1 hnosep
  rw [hok]
  simp only []
  unfold finishStream
  simp [htrim]

theorem eos_fallback_emits_buffer_witness :
    (("hi".toList.isEmpty && (none : Option ImagePayload).isNone) = false) ∧
    splitFirst separator ["he".toList, "llo".toList].flatten = none ∧
    (jsTrim ["he".toList, "llo".toList].flatten).isEmpty = false ∧
    sendMessageStreamToAI parseNone "hi".toList none
        (.ok (["he".toList, "llo".toList], none)) =
      [Ev.data defaultData, Ev.chunk ["he".toList, "llo".toList].flatten,
       Ev.complete] :=
  ⟨by decide, by decide, by decide,
   eos_fallback_emits_buffer parseNone "hi".toList none
     ["he".toList, "llo".toList] (by decide) (by decide) (by decide)⟩

/-- C3 (counterexample to the claim as stated): a turn whose parsed
header has `is_image_prompt = true` with a non-empty prompt receives
zero terminal callbacks — the image short-circuit returns before
`onComplete` and no `onError` fires. -/
theorem image_turn_zero_terminal_events :
    countTerminal (sendMessageStreamToAI parseImagePrompt "hi".toList none
      (.ok (["hJSON|||TEXTbody".toList], none))) = 0 := by
  decide

/-- C3 (amended): every run of `sendMessageStreamToAI` that does not
exit through the image-required short circuit — empty-input short
circuit, normal end of stream (with or without the fallback), stream
error, or retry exhaustion — invokes exactly one terminal callback
(`onComplete` or `onError`); a run that exits through the
image-required short circuit invokes none. -/
theorem stream_exactly_one_terminal_unless_image
    (parse : List Char → Option ParsedData) (message : List Char)
    (image : Option ImagePayload)
    (outcome : Except (List Char) (List (List Char) × Option (List Char))) :
    countTerminal (sendMessageStreamToAI parse message image outcome) =
      if turnHaltedOnImage parse message image outcome = true then 0 else 1 := by
  unfold sendMessageStreamToAI turnHaltedOnImage
  by_cases hmi : (message.isEmpty && image.isNone) = true
  · rw [if_pos hmi, if_pos hmi]
    decide
  · have hmi' : (message.isEmpty && image.isNone) = false := by
      cases hv : message.isEmpty && image.isNone
      · rfl
      · exact absurd hv hmi
    rw [hmi']
    simp only [Bool.false_eq_true, if_false]
    cases outcome with
    | error e =>
      simp only []
      simp [countTerminal, isTerminalEv]
    | ok pr =>
      rcases pr with ⟨frags, streamErr⟩
      simp only []
      unfold runStream
      simp only []
      have hct : countTerminal (processChunks parse initState frags).events = 0 := by
        rw [countTerminal_processChunks parse frags initState]
        rfl
      by_cases hha : (processChunks parse initState frags).halted = true
      · rw [if_pos hha, if_pos hha]
        exact hct
      · have hha' : (processChunks parse initState frags).halted = false := by
          cases hv : (processChunks parse initState frags).halted
          · rfl
          · exact absurd hv hha
        simp only [hha', Bool.false_eq_true, if_false]
        cases streamErr with
        | some e =>
          rw [countTerminal_append, hct]
          simp [countTerminal, isTerminalEv]
        | none =>
          unfold finishStream
          by_cases hfb : (!(processChunks parse initState frags).jsonParsed &&
              !(jsTrim (processChunks parse initState frags).buffer).isEmpty) = true
          · rw [if_pos hfb, countTerminal_append, countTerminal_append, hct]
            simp [countTerminal, isTerminalEv]
          · rw [if_neg hfb, countTerminal_append, hct]
            simp [countTerminal, isTerminalEv]

/-- C1: chunk-boundary invariance.  For a full turn string
`header ++ separator ++ body` whose first sentinel occurrence is the
one between header and body, feeding any sequence of non-empty
fragments with that concatenation to `sendMessageStreamToAI` yields the
same `onData` payloads and the same concatenated `onChunk` text as
feeding the whole string as one fragment.  `parse` is arbitrary because
both runs hand `JSON.parse` the identical header string. -/
theorem sendMessageStream_chunk_boundary_invariance
    (parse : List Char → Option ParsedData) (message : List Char)
    (image : Option ImagePayload) (header body : List Char)
    (frags : List (List Char))
    (hmsg : (message.isEmpty && image.isNone) = false)
    (hsep : splitFirst separator (header ++ separator ++ body) =
      some (header, body))
    (hne : ∀ f ∈ frags, f ≠ [])
    (hjoin : frags.flatten = header ++ separator ++ body) :
    outData (sendMessageStreamToAI parse message image (.ok (frags, none))) =
      outData (sendMessageStreamToAI parse message image
        (.ok ([header ++ separator ++ body], none))) ∧
    outChunks (sendMessageStreamToAI parse message image (.ok (frags, none))) =
      outChunks (sendMessageStreamToAI parse message image
        (.ok ([header ++ separator ++ body], none))) := by
  rw [sendMessageStreamToAI_stream parse message image frags none hmsg,
    sendMessageStreamToAI_stream parse message image _ none hmsg]
  have hflat : frags.flatten = ([header ++ separator ++ body] :
      List (List Char)).flatten := by
    rw [hjoin]
    simp
  exact runStream_eq_of_flatten_eq parse frags [header ++ separator ++ body] hflat

theorem sendMessageStream_chunk_boundary_invariance_witness :
    (("m".toList.isEmpty && (none : Option ImagePayload).isNone) = false) ∧
    splitFirst separator ("A".toList ++ separator ++ "B".toList) =
      some ("A".toList, "B".toList) ∧
    (∀ f ∈ ["AJSON||".toList, "|TEXTB".toList], f ≠ []) ∧
    ["AJSON||".toList, "|TEXTB".toList].flatten =
      "A".toList ++ separator ++ "B".toList ∧
    (outData (sendMessageStreamToAI parseNone "m".toList none
        (.ok (["AJSON||".toList, "|TEXTB".toList], none))) =
      outData (sendMessageStreamToAI parseNone "m".toList none
        (.ok (["A".toList ++ separator ++ "B".toList], none))) ∧
     outChunks (sendMessageStreamToAI parseNone "m".toList none
        (.ok (["AJSON||".toList, "|TEXTB".toList], none))) =
      outChunks (sendMessageStreamToAI parseNone "m".toList none
        (.ok (["A".toList ++ separator ++ "B".toList], none)))) :=
  ⟨by decide, by decide, by decide, by decide,
   sendMessageStream_chunk_boundary_invariance parseNone "m".toList none
     "A".toList "B".toList ["AJSON||".toList, "|TEXTB".toList]
     (by decide) (by decide) (by decide) (by decide)⟩

/-- C2 (counterexample to the claim as stated): the capture encoder does
not round or saturate.  The in-range sample `1.0` is stored as
`ToInt16(32768) = -32768` (wraparound), so the decoded sample is `-1`
and the round-trip error is `2`, far beyond the claimed `1/32768`. -/
theorem createBlob_saturation_counterexample :
    decodeAudioDataMono (atobChars (createBlob [(1 : ℚ)]).data) = [(-1 : ℚ)] ∧
    ¬(|(-1 : ℚ) - 1| ≤ 1 / 32768) := by
  constructor
  · rw [pcm_pipeline]
    have h1 : toInt16 ((1 : ℚ) * 32768) = -32768 := by
      unfold toInt16 ratTrunc
      norm_num
    rw [List.map_cons, List.map_nil, h1]
    norm_num
  · rw [show |(-1 : ℚ) - 1| = 2 by norm_num]
    norm_num

/-- C2 (amended): each sample is converted by truncation toward zero of
`sample * 32768` with 16-bit wraparound (ECMAScript `ToInt16`), not by
rounding with saturation; for every sample in `[-1, 1)` no wraparound
occurs and the `createBlob`/`decodeAudioData` round trip (through the
base64 transport) reproduces the sample with error strictly below
`1/32768`.  At `1.0` the value wraps (see the counterexample). -/
theorem pcm_roundtrip_quantization_bound (data : List ℚ)
    (h : ∀ s ∈ data, -1 ≤ s ∧ s < 1) :
    (decodeAudioDataMono (atobChars (createBlob data).data)).length =
      data.length ∧
    ∀ i, i < data.length →
      |(decodeAudioDataMono (atobChars (createBlob data).data)).getD i 0 -
        data.getD i 0| < 1 / 32768 := by
  rw [pcm_pipeline]
  constructor
  · rw [List.length_map]
  · intro i hi
    have hmap : (data.map fun s => ((toInt16 (s * 32768) : ℤ) : ℚ) / 32768).getD
        i 0 = ((toInt16 (data[i] * 32768) : ℤ) : ℚ) / 32768 := by
      rw [List.getD_eq_getElem _ _ (by rw [List.length_map]; exact hi)]
      rw [List.getElem_map]
    have hdat : data.getD i 0 = data[i] := List.getD_eq_getElem _ _ hi
    rw [hmap, hdat]
    have hs := h data[i] (List.getElem_mem hi)
    exact sample_roundtrip_bound data[i] hs.1 hs.2

theorem pcm_roundtrip_quantization_bound_witness :
    (∀ s ∈ [(1 : ℚ) / 2, -3 / 4, 0], -1 ≤ s ∧ s < 1) ∧
    (decodeAudioDataMono (atobChars
        (createBlob [(1 : ℚ) / 2, -3 / 4, 0]).data)).length = 3 ∧
    ∀ i, i < ([(1 : ℚ) / 2, -3 / 4, 0] : List ℚ).length →
      |(decodeAudioDataMono (atobChars
          (createBlob [(1 : ℚ) / 2, -3 / 4, 0]).data)).getD i 0 -
        ([(1 : ℚ) / 2, -3 / 4, 0] : List ℚ).getD i 0| < 1 / 32768 :=
  by
  have hall : ∀ s ∈ [(1 : ℚ) / 2, -3 / 4, 0], -1 ≤ s ∧ s < 1 := by
    intro s hs
    simp only [List.mem_cons, List.not_mem_nil, or_false] at hs
    rcases hs with rfl | rfl | rfl <;> norm_num
  exact ⟨hall,
    (pcm_roundtrip_quantization_bound [(1 : ℚ) / 2, -3 / 4, 0] hall).1,
    (pcm_roundtrip_quantization_bound [(1 : ℚ) / 2, -3 / 4, 0] hall).2⟩
